import Mathlib

/-!
Shallow embedding of the Clavum secret-management core: the crypto flow
layer (packages/crypto/src), the approval state machine and audit/nonce
services (packages/server/src/services), the request-auth middlewares
(packages/server/src/middleware), and the green-tier retrieval route
(packages/server/src/routes/secrets.ts).

Byte sequences (`Uint8Array` in the TypeScript source) are lists of
naturals.  The cryptographic library primitives that the repository calls
but does not implement (node:crypto, @noble) are modelled by executable
stand-ins that keep exactly the algebraic laws the source relies on:
Diffie-Hellman symmetry for X25519, the encrypt/decrypt inverse for
AES-256-GCM, and determinism for SHA-256 and HKDF.  Ed25519 is the usual
symbolic signature model: a signature is the pair of the signer's public
key and the signed message, and verification compares both.
-/

/-- Byte sequences (`Uint8Array` in the source). -/
abbrev Bytes := List Nat

/-- Deterministic mixing of a byte sequence into a natural number.  Shared
by the stand-in models of the hash and KDF library primitives below. -/
def byteMix (bs : Bytes) : Nat :=
  bs.foldl (fun a b => a * 131 + b % 256 + 1) 5

/-- Model of the SHA-256 library primitive (node:crypto / @noble/hashes): a
deterministic 32-byte digest.  The development relies only on determinism
of the digest, never on collision resistance. -/
def sha256 (data : Bytes) : Bytes :=
  (List.range 32).map (fun i => (byteMix data + 37 * i) % 256)

/-- Modulus of the explicit cyclic group underlying the X25519 model. -/
def dhMod : Nat := 251

/-- Base element of the explicit cyclic group underlying the X25519 model. -/
def dhGen : Nat := 6

/-- Model of an X25519 public key: the group element obtained from a
private scalar, mirroring scalar multiplication with the base point. -/
def x25519.pubOf (priv : Nat) : Nat := dhGen ^ priv % dhMod

/-- Model of `x25519.sharedSecret` (keys.ts): Diffie-Hellman over an
explicit cyclic group, so that the RFC 7748 symmetry law the server code
relies on is a theorem rather than an assumption. -/
def x25519.sharedSecret (priv pub : Nat) : Bytes := [pub ^ priv % dhMod]

/-- ECDH symmetry: both sides of an X25519 exchange compute the same shared
secret.  This is the law the green-tier transport depends on. -/
theorem x25519.shared_symm (a b : Nat) :
    x25519.sharedSecret a (x25519.pubOf b) = x25519.sharedSecret b (x25519.pubOf a) := by
  have h : ∀ x y : Nat, (dhGen ^ x % dhMod) ^ y % dhMod = dhGen ^ (x * y) % dhMod := by
    intro x y
    rw [← Nat.pow_mod, ← pow_mul]
  unfold x25519.sharedSecret x25519.pubOf
  rw [h, h, Nat.mul_comm]

/-- Model of the HKDF-SHA256 library primitive (`hkdfSync` in kdf.ts): a
deterministic function of input key material, salt, info and length. -/
def hkdfSha256 (ikm salt info : Bytes) (len : Nat) : Bytes :=
  (List.range len).map (fun i => (byteMix ikm + 3 * byteMix salt + 7 * byteMix info + i) % 256)

/-- Byte encoding of a string (`TextEncoder.encode` in the source); the
development only uses that it is deterministic and injective on the
code points. -/
def encodeStr (s : String) : Bytes := s.data.map Char.toNat

/-- Protocol version prefix for the HKDF info parameter (kdf.ts). -/
def kekVersion : String := "clavum-kek-v1"

/-- Embedding of `kdf.deriveKek` (kdf.ts): KEK derivation with the
"clavum-kek-v1" info prefix concatenated with the secret id. -/
def kdf.deriveKek (ikm salt : Bytes) (secretId : String) : Bytes :=
  hkdfSha256 ikm salt (encodeStr (kekVersion ++ secretId)) 32

/-- Embedding of `kdf.hash` (kdf.ts): SHA-256. -/
def kdf.hash (data : Bytes) : Bytes := sha256 data

/-- Keystream of the AES-256-GCM model: a deterministic function of key and
IV, XOR-combined with the plaintext. -/
def aes256gcm.keystream (key iv : Bytes) (n : Nat) : Bytes :=
  (List.range n).map (fun i => (byteMix (key ++ iv) + 11 * i) % 256)

/-- Pointwise XOR of two byte sequences. -/
def xorBytes (a b : Bytes) : Bytes := List.zipWith Nat.xor a b

/-- Authentication tag of the AES-256-GCM model: binds key, IV, AAD and
ciphertext deterministically, truncated to 16 bytes. -/
def aes256gcm.tagOf (key iv aad ct : Bytes) : Bytes :=
  (sha256 (key ++ 1 :: iv ++ 2 :: aad ++ 3 :: ct)).take 16

/-- Result of `aes256gcm.encrypt` (aes.ts): ciphertext, IV and tag. -/
structure GcmSealed where
  ciphertext : Bytes
  iv : Bytes
  tag : Bytes
deriving DecidableEq, Repr

/-- Model of `aes256gcm.encrypt` (aes.ts).  The IV, drawn from the CSPRNG
in the source when omitted, is an explicit argument. -/
def aes256gcm.encrypt (key pt aad iv : Bytes) : GcmSealed :=
  let ct := xorBytes pt (aes256gcm.keystream key iv pt.length)
  ⟨ct, iv, aes256gcm.tagOf key iv aad ct⟩

/-- Model of `aes256gcm.decrypt` (aes.ts): checks the tag and inverts the
keystream; `none` is the thrown authentication failure. -/
def aes256gcm.decrypt (key ct iv aad tag : Bytes) : Option Bytes :=
  if tag = aes256gcm.tagOf key iv aad ct then
    some (xorBytes ct (aes256gcm.keystream key iv ct.length))
  else none

theorem xorBytes_length (a b : Bytes) : (xorBytes a b).length = min a.length b.length := by
  simp [xorBytes]

theorem keystream_length (key iv : Bytes) (n : Nat) :
    (aes256gcm.keystream key iv n).length = n := by
  simp [aes256gcm.keystream]

theorem xorBytes_invol (pt : Bytes) : ∀ ks : Bytes, pt.length = ks.length →
    xorBytes (xorBytes pt ks) ks = pt := by
  induction pt with
  | nil =>
    intro ks _
    simp [xorBytes]
  | cons x xs ih =>
    intro ks h
    cases ks with
    | nil => simp at h
    | cons y ys =>
      simp only [xorBytes, List.zipWith]
      have hx : Nat.xor (Nat.xor x y) y = x := Nat.xor_cancel_right y x
      simp only [List.cons.injEq]
      exact ⟨hx, ih ys (by simpa using h)⟩

/-- The AES-256-GCM model decrypts its own output under the same key, IV
and AAD. -/
theorem aes256gcm.decrypt_encrypt (key pt aad iv : Bytes) :
    aes256gcm.decrypt key (aes256gcm.encrypt key pt aad iv).ciphertext iv aad
      (aes256gcm.encrypt key pt aad iv).tag = some pt := by
  unfold aes256gcm.decrypt aes256gcm.encrypt
  simp only [if_pos rfl]
  have hlen : (xorBytes pt (aes256gcm.keystream key iv pt.length)).length = pt.length := by
    rw [xorBytes_length, keystream_length, Nat.min_self]
  rw [hlen]
  exact congrArg some (xorBytes_invol pt (aes256gcm.keystream key iv pt.length)
    (by rw [keystream_length]))

/-- Symbolic model of an Ed25519 signature: the signer's public key paired
with the signed message.  Verification compares both, which gives the
model existential unforgeability by construction. -/
structure Ed25519Sig where
  signerPub : Nat
  message : Bytes
deriving DecidableEq, Repr

/-- Model of an Ed25519 public key derived from a private key.  The model
identifies a keypair by its seed, so the public half is the seed itself;
only the correspondence private-to-public is used. -/
def ed25519.pubOf (priv : Nat) : Nat := priv

/-- Model of `ed25519.sign` (keys.ts). -/
def ed25519.sign (priv : Nat) (msg : Bytes) : Ed25519Sig :=
  ⟨ed25519.pubOf priv, msg⟩

/-- Model of `ed25519.verify` (keys.ts). -/
def ed25519.verify (pub : Nat) (msg : Bytes) (sig : Ed25519Sig) : Bool :=
  sig.signerPub == pub && sig.message == msg

/-- Lowercase hex digit for a value below 16. -/
def hexDigitChar (n : Nat) : Char :=
  if n < 10 then Char.ofNat (48 + n) else Char.ofNat (87 + n)

/-- Lowercase hex rendering of a byte sequence (the
`Buffer.toString('hex')` call in signatures.ts). -/
def hexLower (bs : Bytes) : String :=
  String.mk (bs.foldr (fun b acc => hexDigitChar (b / 16 % 16) :: hexDigitChar (b % 16) :: acc) [])

/-- Canonical request-signature payload of signatures.ts:
TIMESTAMP, METHOD, PATH and the lowercase hex of the body hash, joined
by colons, byte-encoded. -/
def requestPayload (timestamp method path : String) (body : Bytes) : Bytes :=
  encodeStr (timestamp ++ ":" ++ method ++ ":" ++ path ++ ":" ++ hexLower (kdf.hash body))

/-- Embedding of `signatures.signRequest` (signatures.ts). -/
def signatures.signRequest (priv : Nat) (timestamp method path : String) (body : Bytes) :
    Ed25519Sig :=
  ed25519.sign priv (requestPayload timestamp method path body)

/-- JavaScript whitespace skipped by `Number.parseInt`. -/
def isJsWhitespace (c : Char) : Bool :=
  c == ' ' || c == '\t' || c == '\n' || c == '\r'

/-- Longest decimal-digit run at the front of the character list; `none`
when there is no leading digit (the NaN case of `parseInt`). -/
def leadingDigits (cs : List Char) : Option Nat :=
  match cs.takeWhile Char.isDigit with
  | [] => none
  | ds => some (ds.foldl (fun a c => a * 10 + (c.toNat - 48)) 0)

/-- Model of `Number.parseInt(s, 10)`: skip leading whitespace, read an
optional sign, then the longest decimal prefix; `none` is NaN.  Trailing
non-digit characters are ignored, exactly as in JavaScript. -/
def parseIntJs (s : String) : Option Int :=
  match s.data.dropWhile isJsWhitespace with
  | '-' :: rest => (leadingDigits rest).map (fun n => -(n : Int))
  | '+' :: rest => (leadingDigits rest).map (fun n => (n : Int))
  | cs => (leadingDigits cs).map (fun n => (n : Int))

/-- Embedding of `signatures.verifyRequest` (signatures.ts): parse the
timestamp with `parseInt`, reject when the parse is NaN or the absolute
clock distance exceeds `maxAgeMs`, then check the Ed25519 signature over
the canonical payload.  `now` is the `Date.now()` read. -/
def signatures.verifyRequest (pub : Nat) (timestamp method path : String) (body : Bytes)
    (sig : Ed25519Sig) (now : Int) (maxAgeMs : Nat) : Bool :=
  match parseIntJs timestamp with
  | none => false
  | some t =>
    if (now - t).natAbs > maxAgeMs then false
    else ed25519.verify pub (requestPayload timestamp method path body) sig

/-- Embedding of `signatures.buildChallenge` (signatures.ts) for a 32-byte
nonce: the nonce, the secret-id bytes and the reason hash, concatenated.
The CSPRNG nonce drawn in the source when the caller omits one is an
explicit argument. -/
def signatures.buildChallenge (secretId reason : String) (nonce : Bytes) : Bytes :=
  nonce ++ encodeStr secretId ++ kdf.hash (encodeStr reason)

/-- Embedding of `signatures.signApproval` (signatures.ts). -/
def signatures.signApproval (priv : Nat) (challenge : Bytes) : Ed25519Sig :=
  ed25519.sign priv challenge

/-- Embedding of `signatures.verifyApproval` (signatures.ts). -/
def signatures.verifyApproval (pub : Nat) (challenge : Bytes) (sig : Ed25519Sig) : Bool :=
  ed25519.verify pub challenge sig

/-- Embedding of `flows.deriveGreenKek` (flows.ts): ECDH against the peer
public key, then HKDF with the per-secret salt and versioned info. -/
def flows.deriveGreenKek (ephPriv serverPub : Nat) (kekSalt : Bytes) (secretId : String) :
    Bytes :=
  kdf.deriveKek (x25519.sharedSecret ephPriv serverPub) kekSalt secretId

/-- A store of mutable byte buffers, used to observe the zeroization
behaviour of the flow layer.  Indices are allocation order. -/
structure BufStore where
  bufs : List Bytes
deriving DecidableEq, Repr

/-- Allocate a fresh buffer; returns the store and the buffer's index. -/
def BufStore.alloc (h : BufStore) (contents : Bytes) : BufStore × Nat :=
  (⟨h.bufs ++ [contents]⟩, h.bufs.length)

/-- Read a buffer's current contents. -/
def BufStore.read (h : BufStore) (i : Nat) : Bytes := h.bufs.getD i []

/-- Embedding of `wipe` (utils.ts): overwrite the buffer with zeros,
keeping its length (`buffer.fill(0)`). -/
def BufStore.wipeAt (h : BufStore) (i : Nat) : BufStore :=
  ⟨h.bufs.set i ((h.bufs.getD i []).map (fun _ => 0))⟩

/-- Buffer-level embedding of `flows.deriveGreenKek` (flows.ts): the
function materializes the intermediate X25519 shared secret in a buffer,
derives the KEK from it and returns; flows.ts contains no `wipe` call, so
the shared-secret buffer is returned as allocated.  Result: the final
store, the index of the shared-secret buffer, and the KEK. -/
def flows.deriveGreenKekBuf (h : BufStore) (ephPriv serverPub : Nat) (kekSalt : Bytes)
    (secretId : String) : BufStore × Nat × Bytes :=
  let out := h.alloc (x25519.sharedSecret ephPriv serverPub)
  (out.1, out.2, kdf.deriveKek (out.1.read out.2) kekSalt secretId)

/-- Secret tier (`Tier` enum in the Prisma schema). -/
inductive Tier
  | green
  | yellow
  | red
deriving DecidableEq, Repr

/-- Agent row: identity plus the stored public halves. -/
structure AgentRec where
  id : String
  tenantId : String
  x25519Public : Nat
  ed25519Public : Nat
deriving DecidableEq, Repr

/-- Phone row: identity plus the stored Ed25519 public half. -/
structure PhoneRec where
  id : String
  tenantId : String
  ed25519Public : Nat
deriving DecidableEq, Repr

/-- SecretMetadata row. -/
structure SecretMeta where
  id : String
  tenantId : String
  agentId : String
  name : String
  tier : Tier
deriving DecidableEq, Repr

/-- Tenant row, restricted to the field the retrieval route reads. -/
structure TenantRec where
  id : String
  x25519Private : Nat
deriving DecidableEq, Repr

/-- Audit result kind (`AuditResult` enum). -/
inductive AuditResult
  | auto_granted
  | human_approved
  | device_unlocked
  | denied
  | expired
  | error
deriving DecidableEq, Repr

/-- Audit row as written by `createEntry` (services/audit.ts). -/
structure AuditEntry where
  agentId : String
  secretId : String
  reason : String
  tier : Tier
  result : AuditResult
  latencyMs : Option Nat
deriving DecidableEq, Repr

/-- Parsed JSON body of a retrieve request.  The base64url transport
encoding, a bijection on the wire, is elided: the two byte fields carry
their decoded values, with `none` standing for a missing or empty (falsy)
field, and a falsy reason is the empty string. -/
structure RetrieveBody where
  ephX25519Pub : Option Nat
  kekSalt : Option Bytes
  reason : String
deriving DecidableEq, Repr

/-- Outcome of the retrieve route: the JSON response variants of
secrets.ts (400, 404, 403, 500, 200). -/
inductive RetrieveRes
  | badRequest (msg : String)
  | notFound
  | forbidden
  | internalError
  | ok (encKek encKekIv encKekTag : Bytes)
deriving DecidableEq, Repr

/-- Embedding of the retrieve route handler
(`secrets.post('/:id/retrieve')` in routes/secrets.ts), entered after the
auth middleware bound `agent`.  Database lookups are the two table
functions; the AES-GCM transport IV (CSPRNG in the source) and the two
`Date.now()` reads are explicit arguments.  The route-level `wipe` calls
on the local KEK and session-key buffers happen after the response values
are built and do not affect them, so this value-level embedding drops
them.  Returns the response together with the audit rows written. -/
def retrieveHandler (secretsTable : String → Option SecretMeta)
    (tenantsTable : String → Option TenantRec)
    (agent : AgentRec) (secretId : String) (body : RetrieveBody)
    (iv : Bytes) (startMs endMs : Nat) : RetrieveRes × List AuditEntry :=
  if body.ephX25519Pub.isNone || body.kekSalt.isNone || body.reason == "" then
    (.badRequest "missing required fields: eph_x25519_pub, kek_salt, reason", [])
  else
    match secretsTable secretId with
    | none => (.notFound, [])
    | some secret =>
      if secret.agentId ≠ agent.id then (.forbidden, [])
      else if secret.tier ≠ .green then
        (.badRequest "this endpoint only supports green-tier secrets", [])
      else
        match tenantsTable agent.tenantId with
        | none => (.internalError, [])
        | some tenant =>
          let serverPriv := tenant.x25519Private
          let ephPub := body.ephX25519Pub.getD 0
          let kekSalt := body.kekSalt.getD []
          let kek := flows.deriveGreenKek serverPriv ephPub kekSalt secretId
          let kSession := x25519.sharedSecret serverPriv agent.x25519Public
          let sealed := aes256gcm.encrypt kSession kek [] iv
          let latencyMs := endMs - startMs
          (.ok sealed.ciphertext sealed.iv sealed.tag,
            [⟨agent.id, secretId, body.reason, .green, .auto_granted, some latencyMs⟩])

/-- Approval lifecycle status (`ApprovalStatus` enum); `pending` is the
sole non-terminal state. -/
inductive ApprovalStatus
  | pending
  | approved
  | denied
  | expired
deriving DecidableEq, Repr

/-- ApprovalRequest row (services/approval.ts / Prisma schema). -/
structure ApprovalRec where
  id : String
  phoneId : String
  secretId : String
  reason : String
  challenge : Bytes
  status : ApprovalStatus
  createdAt : Nat
  expiresAt : Nat
  respondedAt : Option Nat
  approvalSig : Option Ed25519Sig
deriving DecidableEq, Repr

/-- The approvals table, in insertion order.  Ids are the database's
unique key: lookups take the first match and updates touch only it. -/
abbrev ApprovalStore := List ApprovalRec

/-- `prisma.approvalRequest.findUnique({ where: { id } })`. -/
def findApproval (s : ApprovalStore) (id : String) : Option ApprovalRec :=
  s.find? (fun r => r.id == id)

/-- `prisma.approvalRequest.update({ where: { id }, data })`: rewrite the
unique row with the given id. -/
def updateApproval (s : ApprovalStore) (id : String) (f : ApprovalRec → ApprovalRec) :
    ApprovalStore :=
  match s with
  | [] => []
  | r :: rest => if r.id == id then f r :: rest else r :: updateApproval rest id f

/-- Error codes of `ApprovalError` (services/approval.ts).  The
already-resolved code carries the status quoted in the error message. -/
inductive ApprovalErr
  | approvalNotFound
  | alreadyResolved (st : ApprovalStatus)
  | expired
  | invalidSignature
deriving DecidableEq, Repr

/-- `CreateApprovalParams` (services/approval.ts). -/
structure CreateApprovalParams where
  secretId : String
  phoneId : String
  reason : String
  timeoutMs : Option Nat
deriving DecidableEq, Repr

/-- Default approval timeout (services/approval.ts): 5 minutes. -/
def defaultTimeoutMs : Nat := 300000

/-- Embedding of `createApproval` (services/approval.ts).  The CSPRNG
nonce inside `buildChallenge` and the row id assigned by the database are
explicit arguments; `now` is the clock read. -/
def createApproval (s : ApprovalStore) (p : CreateApprovalParams) (nonce : Bytes)
    (newId : String) (now : Nat) : ApprovalRec × ApprovalStore :=
  let timeoutMs := p.timeoutMs.getD defaultTimeoutMs
  let challenge := signatures.buildChallenge p.secretId p.reason nonce
  let row : ApprovalRec :=
    { id := newId, phoneId := p.phoneId, secretId := p.secretId, reason := p.reason,
      challenge := challenge, status := .pending, createdAt := now,
      expiresAt := now + timeoutMs, respondedAt := none, approvalSig := none }
  (row, s ++ [row])

/-- Embedding of `approveRequest` (services/approval.ts): not-found, then
already-resolved, then lazy expiry, then signature verification, then the
transition to approved.  `now` is the clock read. -/
def approveRequest (s : ApprovalStore) (id : String) (sig : Ed25519Sig) (phonePub : Nat)
    (now : Nat) : Except ApprovalErr ApprovalRec × ApprovalStore :=
  match findApproval s id with
  | none => (.error .approvalNotFound, s)
  | some approval =>
    if approval.status ≠ .pending then (.error (.alreadyResolved approval.status), s)
    else if approval.expiresAt ≤ now then
      (.error .expired,
       updateApproval s id (fun r => { r with status := .expired, respondedAt := some now }))
    else if signatures.verifyApproval phonePub approval.challenge sig then
      let upd : ApprovalRec → ApprovalRec := fun r =>
        { r with status := .approved, approvalSig := some sig, respondedAt := some now }
      (.ok (upd approval), updateApproval s id upd)
    else (.error .invalidSignature, s)

/-- Embedding of `rejectRequest` (services/approval.ts): not-found and
already-resolved checks only, then the transition to denied. -/
def rejectRequest (s : ApprovalStore) (id : String) (now : Nat) :
    Except ApprovalErr ApprovalRec × ApprovalStore :=
  match findApproval s id with
  | none => (.error .approvalNotFound, s)
  | some approval =>
    if approval.status ≠ .pending then (.error (.alreadyResolved approval.status), s)
    else
      (.ok { approval with status := .denied, respondedAt := some now },
       updateApproval s id (fun r => { r with status := .denied, respondedAt := some now }))

/-- Embedding of `getStatus` (services/approval.ts): lazy single-record
expiry, then the record. -/
def getStatus (s : ApprovalStore) (approvalId : String) (now : Nat) :
    Option ApprovalRec × ApprovalStore :=
  match findApproval s approvalId with
  | none => (none, s)
  | some approval =>
    if approval.status = .pending ∧ approval.expiresAt ≤ now then
      (some { approval with status := .expired, respondedAt := some now },
       updateApproval s approvalId
         (fun r => { r with status := .expired, respondedAt := some now }))
    else (some approval, s)

/-- Row filter of the global `expireStale` bulk update: pending and
strictly past the deadline. -/
def staleHit (now : Nat) (r : ApprovalRec) : Bool :=
  r.status == ApprovalStatus.pending && decide (r.expiresAt < now)

/-- Embedding of `expireStale` (services/approval.ts):
`updateMany` over pending rows with `expiresAt < now`; returns the store
and the update count. -/
def expireStale (s : ApprovalStore) (now : Nat) : ApprovalStore × Nat :=
  (s.map (fun r => if staleHit now r
      then { r with status := .expired, respondedAt := some now } else r),
   (s.filter (staleHit now)).length)

/-- Row filter of the per-tenant bulk update: pending, phone among the
tenant's phones, and strictly past the deadline. -/
def tenantStaleHit (phoneIds : List String) (now : Nat) (r : ApprovalRec) : Bool :=
  r.status == ApprovalStatus.pending && phoneIds.contains r.phoneId
    && decide (r.expiresAt < now)

/-- Embedding of `expireStaleForTenant` (services/approval.ts): collect
the tenant's phone ids, return early when there are none, else bulk-mark
matching rows expired. -/
def expireStaleForTenant (s : ApprovalStore) (phones : List PhoneRec) (tenantId : String)
    (now : Nat) : ApprovalStore × Nat :=
  let phoneIds := (phones.filter (fun p => p.tenantId == tenantId)).map (fun p => p.id)
  if phoneIds = [] then (s, 0)
  else
    (s.map (fun r => if tenantStaleHit phoneIds now r
        then { r with status := .expired, respondedAt := some now } else r),
     (s.filter (tenantStaleHit phoneIds now)).length)

/-- Membership test for the `phone: { tenantId }` relation filter of
`getPending`: the row's phone belongs to the tenant. -/
def phoneInTenant (phones : List PhoneRec) (tenantId phoneId : String) : Bool :=
  phones.any (fun p => p.id == phoneId && p.tenantId == tenantId)

/-- Ordered insertion by `createdAt`, the model of the database's
`orderBy: { createdAt: 'asc' }`. -/
def insertByCreated (r : ApprovalRec) : List ApprovalRec → List ApprovalRec
  | [] => [r]
  | x :: xs => if r.createdAt ≤ x.createdAt then r :: x :: xs else x :: insertByCreated r xs

/-- Sort by `createdAt` ascending. -/
def sortByCreated (l : List ApprovalRec) : List ApprovalRec :=
  l.foldr insertByCreated []

/-- Embedding of `getPending` (services/approval.ts): bulk-expire the
tenant's stale rows, then read the still-pending rows of the tenant's
phones ordered by `createdAt` ascending.  Returns the store and the
result list. -/
def getPending (s : ApprovalStore) (phones : List PhoneRec) (tenantId : String) (now : Nat) :
    ApprovalStore × List ApprovalRec :=
  let s1 := (expireStaleForTenant s phones tenantId now).1
  (s1, sortByCreated (s1.filter (fun r =>
    r.status == ApprovalStatus.pending && phoneInTenant phones tenantId r.phoneId)))

/-- Server-side state read by the two auth middlewares: the identity
tables and the shared `usedNonce` table of (signature digest, expiry)
rows.  Both pipelines read and write the same nonce table. -/
structure ServerDb where
  agents : List AgentRec
  phones : List PhoneRec
  nonces : List (String × Nat)
deriving DecidableEq, Repr

/-- An inbound signed request as the middlewares see it: the three auth
headers (with `none` for a missing or empty value; the base64url decoding
of the signature header is elided), method, path and raw body bytes. -/
structure SignedReq where
  idHeader : Option String
  timestampHeader : Option String
  signatureHeader : Option Ed25519Sig
  method : String
  path : String
  body : Bytes
deriving DecidableEq, Repr

/-- Byte serialization of a signature value, the input of the replay
digest (`createHash('sha256').update(sig)`). -/
def sigBytes (sig : Ed25519Sig) : Bytes := sig.signerPub :: sig.message

/-- The replay digest: lowercase hex of the SHA-256 of the signature
bytes (`.digest('hex')`). -/
def sigDigestHex (sig : Ed25519Sig) : String := hexLower (sha256 (sigBytes sig))

/-- Outcome of an auth middleware run: a 401, a 409, or the downstream
handler invoked with the identity bound to the context. -/
inductive AuthOutcome
  | unauthenticated
  | replayed
  | proceedAgent (a : AgentRec)
  | proceedPhone (p : PhoneRec)
deriving DecidableEq, Repr

/-- Nonce retention window (both middlewares): twice the 60-second
signature freshness window. -/
def nonceWindowMs : Nat := 120000

/-- Embedding of `authMiddleware` (middleware/auth.ts): header presence,
agent lookup, signature verification with the 60-second window, then the
replay check against the nonce table and the nonce insert. -/
def authMiddleware (db : ServerDb) (req : SignedReq) (now : Nat) : AuthOutcome × ServerDb :=
  match req.idHeader, req.timestampHeader, req.signatureHeader with
  | some agentId, some timestamp, some sig =>
    match db.agents.find? (fun a => a.id == agentId) with
    | none => (.unauthenticated, db)
    | some agent =>
      if signatures.verifyRequest agent.ed25519Public timestamp req.method req.path req.body
          sig (Int.ofNat now) 60000 then
        let sigHash := sigDigestHex sig
        if (db.nonces.find? (fun n => n.1 == sigHash)).isSome then (.replayed, db)
        else (.proceedAgent agent,
              { db with nonces := db.nonces ++ [(sigHash, now + nonceWindowMs)] })
      else (.unauthenticated, db)
  | _, _, _ => (.unauthenticated, db)

/-- Embedding of `phoneAuthMiddleware` (middleware/phone-auth.ts): the
same pipeline keyed on the phone identity, with the replay check through
`isReplay` and the insert through `storeNonce`, both over the same
`usedNonce` table. -/
def phoneAuthMiddleware (db : ServerDb) (req : SignedReq) (now : Nat) :
    AuthOutcome × ServerDb :=
  match req.idHeader, req.timestampHeader, req.signatureHeader with
  | some phoneId, some timestamp, some sig =>
    match db.phones.find? (fun p => p.id == phoneId) with
    | none => (.unauthenticated, db)
    | some phone =>
      if signatures.verifyRequest phone.ed25519Public timestamp req.method req.path req.body
          sig (Int.ofNat now) 60000 then
        let sigHash := sigDigestHex sig
        if (db.nonces.find? (fun n => n.1 == sigHash)).isSome then (.replayed, db)
        else (.proceedPhone phone,
              { db with nonces := db.nonces ++ [(sigHash, now + nonceWindowMs)] })
      else (.unauthenticated, db)
  | _, _, _ => (.unauthenticated, db)

/-- The pre-nonce part of the agent pipeline: headers present, agent
found, and the signature verifies.  A request satisfying this reaches the
replay check. -/
def agentAuthenticates (db : ServerDb) (req : SignedReq) (now : Nat) : Bool :=
  match req.idHeader, req.timestampHeader, req.signatureHeader with
  | some agentId, some timestamp, some sig =>
    match db.agents.find? (fun a => a.id == agentId) with
    | none => false
    | some agent =>
      signatures.verifyRequest agent.ed25519Public timestamp req.method req.path req.body
        sig (Int.ofNat now) 60000
  | _, _, _ => false

/-- The pre-nonce part of the phone pipeline. -/
def phoneAuthenticates (db : ServerDb) (req : SignedReq) (now : Nat) : Bool :=
  match req.idHeader, req.timestampHeader, req.signatureHeader with
  | some phoneId, some timestamp, some sig =>
    match db.phones.find? (fun p => p.id == phoneId) with
    | none => false
    | some phone =>
      signatures.verifyRequest phone.ed25519Public timestamp req.method req.path req.body
        sig (Int.ofNat now) 60000
  | _, _, _ => false

/-- C6: the claim requires every flow operation to zeroize its local KEK
and every intermediate shared secret before returning; in the code,
`flows.deriveGreenKek` allocates the intermediate X25519 shared-secret
buffer and returns without any `wipe` call, so after the call the buffer
still holds the raw shared secret rather than zeros.  Evaluated here at a
concrete input. -/
theorem deriveGreenKek_shared_secret_not_wiped :
    ((flows.deriveGreenKekBuf ⟨[]⟩ 1 3 (List.replicate 32 1) "sec-1").1).read
        (flows.deriveGreenKekBuf ⟨[]⟩ 1 3 (List.replicate 32 1) "sec-1").2.1
      = x25519.sharedSecret 1 3
    ∧ x25519.sharedSecret 1 3 ≠ (x25519.sharedSecret 1 3).map (fun _ => 0) := by
  decide

/-- C2 counterexample: a retrieve request by the owning agent for a
yellow-tier secret does not produce a pending approval token; the route
answers 400 with the green-tier-only message and writes nothing. -/
theorem yellow_retrieve_is_bad_request :
    retrieveHandler
      (fun s => if s = "sec-y" then some ⟨"sec-y", "t1", "a1", "pay", Tier.yellow⟩ else none)
      (fun t => if t = "t1" then some ⟨"t1", 7⟩ else none)
      ⟨"a1", "t1", 5, 9⟩ "sec-y" ⟨some 4, some (List.replicate 32 1), "deploy"⟩
      (List.replicate 12 2) 100 105
    = (.badRequest "this endpoint only supports green-tier secrets", []) := by
  decide

/-- C2 amended: for every retrieve request by the owning agent for a
secret whose tier is not green (in particular the yellow tier), the route
does not delegate to the approval machine and returns no pending token;
it answers BadRequest with the green-tier-only message and writes no
audit row. -/
theorem nonGreen_retrieve_bad_request (secretsTable : String → Option SecretMeta)
    (tenantsTable : String → Option TenantRec) (agent : AgentRec) (secretId : String)
    (body : RetrieveBody) (iv : Bytes) (startMs endMs : Nat) (e : Nat) (k : Bytes)
    (s : SecretMeta)
    (hfields : body.ephX25519Pub = some e) (hsalt : body.kekSalt = some k)
    (hreason : body.reason ≠ "") (hsec : secretsTable secretId = some s)
    (howner : s.agentId = agent.id) (htier : s.tier ≠ .green) :
    retrieveHandler secretsTable tenantsTable agent secretId body iv startMs endMs
      = (.badRequest "this endpoint only supports green-tier secrets", []) := by
  have hr : (body.reason == "") = false := beq_eq_false_iff_ne.mpr hreason
  simp [retrieveHandler, hfields, hsalt, hr, hsec, howner, htier]

/-- C2 witness: the amended statement applied at a concrete red-tier
secret. -/
theorem nonGreen_retrieve_bad_request_witness :
    retrieveHandler
      (fun s => if s = "sec-r" then some ⟨"sec-r", "t2", "a2", "prod", Tier.red⟩ else none)
      (fun _ => none) ⟨"a2", "t2", 5, 9⟩ "sec-r" ⟨some 8, some [1, 2], "rotate"⟩ [0] 3 9
      = (.badRequest "this endpoint only supports green-tier secrets", []) :=
  nonGreen_retrieve_bad_request _ _ _ _ _ _ _ _ 8 [1, 2] ⟨"sec-r", "t2", "a2", "prod", Tier.red⟩
    rfl rfl (by decide) (by decide) rfl (by decide)

/-- C7 counterexample: a retrieval that terminates NotFound writes zero
audit rows, so not every terminal outcome writes an audit entry. -/
theorem retrieve_not_found_writes_no_audit :
    retrieveHandler (fun _ => none) (fun _ => none) ⟨"a1", "t1", 5, 9⟩ "missing"
      ⟨some 4, some [1], "check"⟩ [0] 0 7 = (.notFound, []) := by
  decide

/-- C7 amended: the retrieve route writes exactly one audit row, carrying
the caller's reason, the green tier, the auto-granted result and the
measured latency, when and only when it returns the 200 success; every
error outcome (BadRequest, NotFound, Forbidden, InternalError) returns
without writing any audit row. -/
theorem retrieve_audit_iff_granted (secretsTable : String → Option SecretMeta)
    (tenantsTable : String → Option TenantRec) (agent : AgentRec) (secretId : String)
    (body : RetrieveBody) (iv : Bytes) (startMs endMs : Nat) :
    ((retrieveHandler secretsTable tenantsTable agent secretId body iv startMs endMs).2
        = [⟨agent.id, secretId, body.reason, Tier.green, AuditResult.auto_granted,
            some (endMs - startMs)⟩]
      ∧ ∃ ct tg, (retrieveHandler secretsTable tenantsTable agent secretId body iv
            startMs endMs).1 = RetrieveRes.ok ct iv tg)
    ∨ ((retrieveHandler secretsTable tenantsTable agent secretId body iv startMs endMs).2 = []
      ∧ ∀ ct ivv tg, (retrieveHandler secretsTable tenantsTable agent secretId body iv
            startMs endMs).1 ≠ RetrieveRes.ok ct ivv tg) := by
  unfold retrieveHandler
  split
  · exact Or.inr ⟨rfl, by intro ct ivv tg h; cases h⟩
  · split
    · exact Or.inr ⟨rfl, by intro ct ivv tg h; cases h⟩
    · split
      · exact Or.inr ⟨rfl, by intro ct ivv tg h; cases h⟩
      · split
        · exact Or.inr ⟨rfl, by intro ct ivv tg h; cases h⟩
        · split
          · exact Or.inr ⟨rfl, by intro ct ivv tg h; cases h⟩
          · exact Or.inl ⟨rfl, _, _, rfl⟩

/-- C1: green-tier retrieval round trip.  For a retrieve request by the
owning agent of a green-tier secret, carrying a genuine ephemeral public
key, a salt and a non-empty reason, the route returns an encrypted KEK
triple such that AES-256-GCM-decrypting it under the client-side session
key X25519(agent_priv, server_pub) with empty AAD yields exactly the KEK
the client derives locally as
HKDF(X25519(eph_priv, server_pub), kek_salt, clavum-kek-v1 and the secret
id, 32), by ECDH symmetry. -/
theorem green_retrieval_roundtrip (secretsTable : String → Option SecretMeta)
    (tenantsTable : String → Option TenantRec)
    (serverPriv agentPriv ephPriv edPub : Nat) (kekSalt : Bytes) (reason : String)
    (sid tid aid sname : String) (iv : Bytes) (startMs endMs : Nat)
    (hsec : secretsTable sid = some ⟨sid, tid, aid, sname, Tier.green⟩)
    (hten : tenantsTable tid = some ⟨tid, serverPriv⟩)
    (hreason : reason ≠ "") :
    ∃ ct tg,
      (retrieveHandler secretsTable tenantsTable ⟨aid, tid, x25519.pubOf agentPriv, edPub⟩
          sid ⟨some (x25519.pubOf ephPriv), some kekSalt, reason⟩ iv startMs endMs).1
        = RetrieveRes.ok ct iv tg
      ∧ aes256gcm.decrypt (x25519.sharedSecret agentPriv (x25519.pubOf serverPriv)) ct iv [] tg
        = some (kdf.deriveKek (x25519.sharedSecret ephPriv (x25519.pubOf serverPriv))
            kekSalt sid) := by
  have hr : (reason == "") = false := beq_eq_false_iff_ne.mpr hreason
  simp only [retrieveHandler, hsec, hten, hr, Option.isNone_some, Bool.or_self,
    Bool.or_false, Bool.false_or, Bool.false_eq_true, if_false, ne_eq, not_true_eq_false,
    reduceIte]
  refine ⟨_, _, rfl, ?_⟩
  rw [x25519.shared_symm agentPriv serverPriv, x25519.shared_symm ephPriv serverPriv]
  unfold flows.deriveGreenKek
  exact aes256gcm.decrypt_encrypt _ _ _ _

/-- C1 witness: the round trip at concrete keys, salt and reason. -/
theorem green_retrieval_roundtrip_witness :
    ∃ ct tg,
      (retrieveHandler
          (fun s => if s = "sec-1" then some ⟨"sec-1", "t1", "a1", "db", Tier.green⟩ else none)
          (fun t => if t = "t1" then some ⟨"t1", 7⟩ else none)
          ⟨"a1", "t1", x25519.pubOf 11, 9⟩ "sec-1"
          ⟨some (x25519.pubOf 13), some (List.replicate 32 1), "ci deploy"⟩
          (List.replicate 12 2) 100 105).1
        = RetrieveRes.ok ct (List.replicate 12 2) tg
      ∧ aes256gcm.decrypt (x25519.sharedSecret 11 (x25519.pubOf 7)) ct
          (List.replicate 12 2) [] tg
        = some (kdf.deriveKek (x25519.sharedSecret 13 (x25519.pubOf 7))
            (List.replicate 32 1) "sec-1") :=
  green_retrieval_roundtrip _ _ 7 11 13 9 (List.replicate 32 1) "ci deploy"
    "sec-1" "t1" "a1" "db" (List.replicate 12 2) 100 105 rfl rfl (by decide)

/-- C3: approve failure semantics in order.  A missing record fails
not-found; a non-pending record fails already-resolved carrying its
status; a pending record at or past its deadline is lazily marked expired
with responded-at set and fails expired; a pending unexpired record whose
signature fails verification fails invalid-signature with the store
unchanged; otherwise the record transitions to approved with the
signature persisted and responded-at set. -/
theorem approve_failure_semantics (s : ApprovalStore) (id : String) (sig : Ed25519Sig)
    (phonePub : Nat) (now : Nat) :
    (findApproval s id = none →
        approveRequest s id sig phonePub now = (.error .approvalNotFound, s)) ∧
    (∀ r, findApproval s id = some r → r.status ≠ .pending →
        approveRequest s id sig phonePub now = (.error (.alreadyResolved r.status), s)) ∧
    (∀ r, findApproval s id = some r → r.status = .pending → r.expiresAt ≤ now →
        approveRequest s id sig phonePub now
          = (.error .expired, updateApproval s id (fun q => { q with status := ApprovalStatus.expired, respondedAt := some now }))) ∧
    (∀ r, findApproval s id = some r → r.status = .pending → now < r.expiresAt →
        signatures.verifyApproval phonePub r.challenge sig = false →
        approveRequest s id sig phonePub now = (.error .invalidSignature, s)) ∧
    (∀ r, findApproval s id = some r → r.status = .pending → now < r.expiresAt →
        signatures.verifyApproval phonePub r.challenge sig = true →
        approveRequest s id sig phonePub now
          = (.ok { r with status := ApprovalStatus.approved, approvalSig := some sig, respondedAt := some now },
             updateApproval s id (fun q => { q with status := ApprovalStatus.approved, approvalSig := some sig, respondedAt := some now }))) := by
  refine ⟨?_, ?_, ?_, ?_, ?_⟩
  · intro hfind
    unfold approveRequest
    rw [hfind]
  · intro r hfind hst
    unfold approveRequest
    rw [hfind]
    simp [hst]
  · intro r hfind hst hexp
    unfold approveRequest
    rw [hfind]
    simp [hst, hexp]
  · intro r hfind hst hexp hsig
    unfold approveRequest
    rw [hfind]
    simp [hst, Nat.not_le.mpr hexp, hsig]
  · intro r hfind hst hexp hsig
    unfold approveRequest
    rw [hfind]
    simp [hst, Nat.not_le.mpr hexp, hsig]

/-- Concrete pending approval record used by the approval witnesses. -/
def apWitnessRec : ApprovalRec :=
  ⟨"ap1", "p1", "sec-1", "deploy key", [1, 2, 3], .pending, 10, 100, none, none⟩

/-- Concrete phone approval signature over the stored challenge. -/
def apWitnessSig : Ed25519Sig := signatures.signApproval 9 [1, 2, 3]

/-- C3 witness: the success branch applied at a concrete store. -/
theorem approve_failure_semantics_witness :
    approveRequest [apWitnessRec] "ap1" apWitnessSig 9 50
      = (.ok { apWitnessRec with status := ApprovalStatus.approved, approvalSig := some apWitnessSig, respondedAt := some 50 },
         updateApproval [apWitnessRec] "ap1" (fun q => { q with status := ApprovalStatus.approved, approvalSig := some apWitnessSig, respondedAt := some 50 })) :=
  (approve_failure_semantics [apWitnessRec] "ap1" apWitnessSig 9 50).2.2.2.2
    apWitnessRec (by decide) (by decide) (by decide) (by decide)

/-- C10: reject performs no expiry check.  For a stored pending approval,
rejectRequest transitions it to denied with responded-at set even when
the clock is at or past the deadline; the record ends denied, not
expired. -/
theorem reject_ignores_expiry (s : ApprovalStore) (id : String) (now : Nat)
    (r : ApprovalRec) (hfind : findApproval s id = some r)
    (hpend : r.status = .pending) (hpast : r.expiresAt ≤ now) :
    rejectRequest s id now
      = (.ok { r with status := ApprovalStatus.denied, respondedAt := some now },
         updateApproval s id (fun q => { q with status := ApprovalStatus.denied, respondedAt := some now })) := by
  unfold rejectRequest
  rw [hfind]
  simp [hpend]

/-- C10 witness: rejecting a pending approval whose deadline has already
passed still yields denied. -/
theorem reject_ignores_expiry_witness :
    rejectRequest [⟨"ap2", "p1", "sec-1", "why", [7], .pending, 10, 40, none, none⟩] "ap2" 40
      = (.ok { (⟨"ap2", "p1", "sec-1", "why", [7], .pending, 10, 40, none, none⟩ : ApprovalRec) with status := ApprovalStatus.denied, respondedAt := some 40 },
         updateApproval [⟨"ap2", "p1", "sec-1", "why", [7], .pending, 10, 40, none, none⟩] "ap2" (fun q => { q with status := ApprovalStatus.denied, respondedAt := some 40 })) :=
  reject_ignores_expiry _ "ap2" 40 ⟨"ap2", "p1", "sec-1", "why", [7], .pending, 10, 40, none, none⟩
    (by decide) (by decide) (by decide)

/-- Per-record half of the data-model invariant: a record out of the
pending state carries a responded-at timestamp. -/
abbrev respondedOk (r : ApprovalRec) : Prop :=
  r.status ≠ ApprovalStatus.pending → r.respondedAt ≠ none

/-- Store-wide invariant: every terminal record has responded-at set. -/
abbrev respondedInvariant (s : ApprovalStore) : Prop := ∀ r ∈ s, respondedOk r

/-- Terminal records are untouched: every row of the old store that is
not pending is still at its position, unchanged, in the new store. -/
abbrev terminalFrozen (s t : ApprovalStore) : Prop :=
  ∀ (i : Nat) (r : ApprovalRec), s[i]? = some r →
    r.status ≠ ApprovalStatus.pending → t[i]? = some r

theorem terminalFrozen_refl (s : ApprovalStore) : terminalFrozen s s :=
  fun _ _ hi _ => hi

theorem updateApproval_cons_pos (a : ApprovalRec) (rest : ApprovalStore) (id : String)
    (f : ApprovalRec → ApprovalRec) (ha : (a.id == id) = true) :
    updateApproval (a :: rest) id f = f a :: rest := by
  simp only [updateApproval, ha, if_true]

theorem updateApproval_cons_neg (a : ApprovalRec) (rest : ApprovalStore) (id : String)
    (f : ApprovalRec → ApprovalRec) (ha : ¬ (a.id == id) = true) :
    updateApproval (a :: rest) id f = a :: updateApproval rest id f := by
  simp [updateApproval, ha]

theorem findApproval_cons_pos (a : ApprovalRec) (rest : ApprovalStore) (id : String)
    (ha : (a.id == id) = true) : findApproval (a :: rest) id = some a :=
  List.find?_cons_of_pos _ ha

theorem findApproval_cons_neg (a : ApprovalRec) (rest : ApprovalStore) (id : String)
    (ha : ¬ (a.id == id) = true) : findApproval (a :: rest) id = findApproval rest id :=
  List.find?_cons_of_neg _ ha

theorem terminalFrozen_updateApproval (s : ApprovalStore) (id : String)
    (f : ApprovalRec → ApprovalRec)
    (h : ∀ r, findApproval s id = some r → r.status = ApprovalStatus.pending) :
    terminalFrozen s (updateApproval s id f) := by
  induction s with
  | nil => intro i r hi; simp at hi
  | cons a rest ih =>
    intro i r hi hst
    by_cases ha : (a.id == id) = true
    · have hpend := h a (findApproval_cons_pos a rest id ha)
      cases i with
      | zero =>
        simp only [List.getElem?_cons_zero, Option.some.injEq] at hi
        exact absurd (hi ▸ hpend) hst
      | succ n =>
        rw [updateApproval_cons_pos a rest id f ha, List.getElem?_cons_succ]
        rw [List.getElem?_cons_succ] at hi
        exact hi
    · rw [updateApproval_cons_neg a rest id f ha]
      cases i with
      | zero =>
        rw [List.getElem?_cons_zero] at hi ⊢
        exact hi
      | succ n =>
        rw [List.getElem?_cons_succ] at hi ⊢
        have h2 : ∀ q, findApproval rest id = some q → q.status = ApprovalStatus.pending := by
          intro q hq
          exact h q ((findApproval_cons_neg a rest id ha).symm ▸ hq)
        exact ih h2 n r hi hst

theorem mem_updateApproval (s : ApprovalStore) (id : String) (f : ApprovalRec → ApprovalRec)
    (r : ApprovalRec) (hr : r ∈ updateApproval s id f) :
    r ∈ s ∨ ∃ q, q ∈ s ∧ r = f q := by
  induction s with
  | nil => simp [updateApproval] at hr
  | cons a rest ih =>
    by_cases ha : (a.id == id) = true
    · rw [updateApproval_cons_pos a rest id f ha] at hr
      rcases List.mem_cons.mp hr with hr | hr
      · exact Or.inr ⟨a, List.mem_cons_self a rest, hr⟩
      · exact Or.inl (List.mem_cons_of_mem a hr)
    · rw [updateApproval_cons_neg a rest id f ha] at hr
      rcases List.mem_cons.mp hr with hr | hr
      · exact Or.inl (hr ▸ List.mem_cons_self a rest)
      · rcases ih hr with hr2 | ⟨q, hq, hfq⟩
        · exact Or.inl (List.mem_cons_of_mem a hr2)
        · exact Or.inr ⟨q, List.mem_cons_of_mem a hq, hfq⟩

theorem respondedInvariant_updateApproval (s : ApprovalStore) (id : String)
    (f : ApprovalRec → ApprovalRec)
    (hf : ∀ r, respondedOk (f r)) (hs : respondedInvariant s) :
    respondedInvariant (updateApproval s id f) := by
  intro r hr
  rcases mem_updateApproval s id f r hr with hr2 | ⟨q, _, hfq⟩
  · exact hs r hr2
  · exact hfq ▸ hf q

theorem terminalFrozen_map (s : ApprovalStore) (g : ApprovalRec → ApprovalRec)
    (hg : ∀ r, r.status ≠ ApprovalStatus.pending → g r = r) :
    terminalFrozen s (s.map g) := by
  intro i r hi hst
  rw [List.getElem?_map, hi]
  simp [hg r hst]

theorem respondedInvariant_map (s : ApprovalStore) (g : ApprovalRec → ApprovalRec)
    (hg : ∀ r, respondedOk r → respondedOk (g r)) (hs : respondedInvariant s) :
    respondedInvariant (s.map g) := by
  intro r hr
  rcases List.mem_map.mp hr with ⟨q, hq, hgq⟩
  exact hgq ▸ hg q (hs q hq)

/-- Characterization of the store approveRequest leaves behind: either
untouched, or a single-row update that sets responded-at and whose target
row was pending. -/
theorem approveRequest_store_cases (s : ApprovalStore) (id : String) (sig : Ed25519Sig)
    (pub : Nat) (now : Nat) :
    (approveRequest s id sig pub now).2 = s ∨
    ∃ f : ApprovalRec → ApprovalRec,
      (approveRequest s id sig pub now).2 = updateApproval s id f
      ∧ (∀ r, respondedOk (f r))
      ∧ (∀ r, findApproval s id = some r → r.status = ApprovalStatus.pending) := by
  cases hfind : findApproval s id with
  | none => exact Or.inl (by simp [approveRequest, hfind])
  | some a =>
    by_cases hst : a.status = ApprovalStatus.pending
    · have hpend : ∀ r : ApprovalRec, (some a : Option ApprovalRec) = some r →
          r.status = ApprovalStatus.pending := by
        intro r hr
        cases hr
        exact hst
      by_cases hexp : a.expiresAt ≤ now
      · refine Or.inr ⟨fun r => { r with status := ApprovalStatus.expired, respondedAt := some now }, ?_, ?_, hpend⟩
        · simp [approveRequest, hfind, hst, hexp]
        · intro r _
          simp
      · by_cases hsig : signatures.verifyApproval pub a.challenge sig = true
        · refine Or.inr ⟨fun r => { r with status := ApprovalStatus.approved, approvalSig := some sig, respondedAt := some now }, ?_, ?_, hpend⟩
          · simp [approveRequest, hfind, hst, hexp, hsig]
          · intro r _
            simp
        · exact Or.inl (by simp [approveRequest, hfind, hst, hexp, hsig])
    · exact Or.inl (by simp [approveRequest, hfind, hst])

/-- Characterization of the store rejectRequest leaves behind. -/
theorem rejectRequest_store_cases (s : ApprovalStore) (id : String) (now : Nat) :
    (rejectRequest s id now).2 = s ∨
    ∃ f : ApprovalRec → ApprovalRec,
      (rejectRequest s id now).2 = updateApproval s id f
      ∧ (∀ r, respondedOk (f r))
      ∧ (∀ r, findApproval s id = some r → r.status = ApprovalStatus.pending) := by
  cases hfind : findApproval s id with
  | none => exact Or.inl (by simp [rejectRequest, hfind])
  | some a =>
    by_cases hst : a.status = ApprovalStatus.pending
    · refine Or.inr ⟨fun r => { r with status := ApprovalStatus.denied, respondedAt := some now }, ?_, ?_, ?_⟩
      · simp [rejectRequest, hfind, hst]
      · intro r _
        simp
      · intro r hr
        cases hr
        exact hst
    · exact Or.inl (by simp [rejectRequest, hfind, hst])

/-- Characterization of the store getStatus leaves behind. -/
theorem getStatus_store_cases (s : ApprovalStore) (id : String) (now : Nat) :
    (getStatus s id now).2 = s ∨
    ∃ f : ApprovalRec → ApprovalRec,
      (getStatus s id now).2 = updateApproval s id f
      ∧ (∀ r, respondedOk (f r))
      ∧ (∀ r, findApproval s id = some r → r.status = ApprovalStatus.pending) := by
  cases hfind : findApproval s id with
  | none => exact Or.inl (by simp [getStatus, hfind])
  | some a =>
    by_cases hcond : a.status = ApprovalStatus.pending ∧ a.expiresAt ≤ now
    · refine Or.inr ⟨fun r => { r with status := ApprovalStatus.expired, respondedAt := some now }, ?_, ?_, ?_⟩
      · simp [getStatus, hfind, hcond]
      · intro r _
        simp
      · intro r hr
        cases hr
        exact hcond.1
    · exact Or.inl (by simp [getStatus, hfind, hcond])

/-- From the store characterization, both halves of the invariant. -/
theorem invariant_of_store_cases (s t : ApprovalStore) (id : String)
    (h : t = s ∨ ∃ f : ApprovalRec → ApprovalRec,
        t = updateApproval s id f ∧ (∀ r, respondedOk (f r))
        ∧ (∀ r, findApproval s id = some r → r.status = ApprovalStatus.pending)) :
    (respondedInvariant s → respondedInvariant t) ∧ terminalFrozen s t := by
  rcases h with rfl | ⟨f, rfl, hf, hpend⟩
  · exact ⟨fun hs => hs, terminalFrozen_refl _⟩
  · exact ⟨respondedInvariant_updateApproval s id f hf,
      terminalFrozen_updateApproval s id f hpend⟩

/-- The bulk-expiry row rewrite preserves the per-record invariant. -/
theorem respondedOk_expireMap (now : Nat) (hit : ApprovalRec → Bool) (r : ApprovalRec)
    (hr : respondedOk r) :
    respondedOk (if hit r then { r with status := ApprovalStatus.expired, respondedAt := some now } else r) := by
  by_cases hh : hit r = true
  · simp [hh]
  · simp only [hh, if_false, Bool.false_eq_true]
    exact hr

/-- C9: every approval operation preserves the terminal-state invariant.
For each of create, approve, reject, get-status lazy expiry, global bulk
expiry and per-tenant bulk expiry: if every terminal record of the store
has responded-at set then the same holds afterwards, and every record
already in a terminal state is left at its position unchanged, so its
status never changes again. -/
theorem approval_terminal_invariant (s : ApprovalStore) (now : Nat) :
    (∀ p nonce newId, respondedInvariant s →
        respondedInvariant (createApproval s p nonce newId now).2) ∧
    (∀ p nonce newId, terminalFrozen s (createApproval s p nonce newId now).2) ∧
    (∀ id sig pub, respondedInvariant s →
        respondedInvariant (approveRequest s id sig pub now).2) ∧
    (∀ id sig pub, terminalFrozen s (approveRequest s id sig pub now).2) ∧
    (∀ id, respondedInvariant s → respondedInvariant (rejectRequest s id now).2) ∧
    (∀ id, terminalFrozen s (rejectRequest s id now).2) ∧
    (∀ id, respondedInvariant s → respondedInvariant (getStatus s id now).2) ∧
    (∀ id, terminalFrozen s (getStatus s id now).2) ∧
    (respondedInvariant s → respondedInvariant (expireStale s now).1) ∧
    terminalFrozen s (expireStale s now).1 ∧
    (∀ phones tid, respondedInvariant s →
        respondedInvariant (expireStaleForTenant s phones tid now).1) ∧
    (∀ phones tid, terminalFrozen s (expireStaleForTenant s phones tid now).1) := by
  have hcreateInv : ∀ p nonce newId, respondedInvariant s →
      respondedInvariant (createApproval s p nonce newId now).2 := by
    intro p nonce newId hs r hr
    simp only [createApproval] at hr
    rcases List.mem_append.mp hr with hr | hr
    · exact hs r hr
    · intro hst
      simp only [List.mem_singleton] at hr
      subst hr
      simp at hst
  have hcreateFro : ∀ p nonce newId, terminalFrozen s (createApproval s p nonce newId now).2 := by
    intro p nonce newId i r hi hst
    have hlt : i < s.length := by
      rcases List.getElem?_eq_some.mp hi with ⟨hl, _⟩
      exact hl
    simp only [createApproval]
    rw [List.getElem?_append_left hlt]
    exact hi
  have hexpMap : ∀ (hit : ApprovalRec → Bool),
      (∀ r, r.status ≠ ApprovalStatus.pending → hit r = false) →
      (respondedInvariant s → respondedInvariant (s.map (fun r =>
          if hit r then { r with status := ApprovalStatus.expired, respondedAt := some now } else r)))
      ∧ terminalFrozen s (s.map (fun r =>
          if hit r then { r with status := ApprovalStatus.expired, respondedAt := some now } else r)) := by
    intro hit hmiss
    constructor
    · intro hs
      exact respondedInvariant_map s _ (fun r hr => respondedOk_expireMap now hit r hr) hs
    · refine terminalFrozen_map s _ ?_
      intro r hst
      simp [hmiss r hst]
  have hstaleMiss : ∀ r : ApprovalRec, r.status ≠ ApprovalStatus.pending →
      staleHit now r = false := by
    intro r hst
    have hbeq : (r.status == ApprovalStatus.pending) = false := beq_eq_false_iff_ne.mpr hst
    simp [staleHit, hbeq]
  refine ⟨hcreateInv, hcreateFro, ?_, ?_, ?_, ?_, ?_, ?_, ?_, ?_, ?_, ?_⟩
  · intro id sig pub
    exact (invariant_of_store_cases s _ id (approveRequest_store_cases s id sig pub now)).1
  · intro id sig pub
    exact (invariant_of_store_cases s _ id (approveRequest_store_cases s id sig pub now)).2
  · intro id
    exact (invariant_of_store_cases s _ id (rejectRequest_store_cases s id now)).1
  · intro id
    exact (invariant_of_store_cases s _ id (rejectRequest_store_cases s id now)).2
  · intro id
    exact (invariant_of_store_cases s _ id (getStatus_store_cases s id now)).1
  · intro id
    exact (invariant_of_store_cases s _ id (getStatus_store_cases s id now)).2
  · intro hs
    exact ((hexpMap (staleHit now) hstaleMiss).1) hs
  · exact (hexpMap (staleHit now) hstaleMiss).2
  · intro phones tid hs
    simp only [expireStaleForTenant]
    split
    · exact hs
    · refine ((hexpMap (tenantStaleHit ((phones.filter (fun p => p.tenantId == tid)).map (fun p => p.id)) now) ?_).1) hs
      intro r hst
      have hbeq : (r.status == ApprovalStatus.pending) = false := beq_eq_false_iff_ne.mpr hst
      simp [tenantStaleHit, hbeq]
  · intro phones tid
    simp only [expireStaleForTenant]
    split
    · exact terminalFrozen_refl s
    · refine (hexpMap (tenantStaleHit ((phones.filter (fun p => p.tenantId == tid)).map (fun p => p.id)) now) ?_).2
      intro r hst
      have hbeq : (r.status == ApprovalStatus.pending) = false := beq_eq_false_iff_ne.mpr hst
      simp [tenantStaleHit, hbeq]

/-- C9 witness: approving a concrete pending record in a store that also
holds an already-approved record keeps the invariant. -/
theorem approval_terminal_invariant_witness :
    respondedInvariant ((approveRequest
      [⟨"ap1", "p1", "s1", "old", [1], .approved, 1, 10, some 5, none⟩,
       ⟨"ap3", "p1", "s2", "new", [2], .pending, 2, 100, none, none⟩]
      "ap3" (signatures.signApproval 9 [2]) 9 50).2) :=
  (approval_terminal_invariant
    [⟨"ap1", "p1", "s1", "old", [1], .approved, 1, 10, some 5, none⟩,
     ⟨"ap3", "p1", "s2", "new", [2], .pending, 2, 100, none, none⟩] 50).2.2.1
    "ap3" (signatures.signApproval 9 [2]) 9 (by decide)

theorem mem_insertByCreated (r a : ApprovalRec) (l : List ApprovalRec) :
    a ∈ insertByCreated r l ↔ a = r ∨ a ∈ l := by
  induction l with
  | nil => simp [insertByCreated]
  | cons x xs ih =>
    by_cases h : r.createdAt ≤ x.createdAt
    · simp only [insertByCreated, h, if_true, List.mem_cons]
    · simp only [insertByCreated, h, if_false, List.mem_cons, ih]
      tauto

theorem sorted_insertByCreated (r : ApprovalRec) (l : List ApprovalRec)
    (hl : l.Pairwise (fun a b => a.createdAt ≤ b.createdAt)) :
    (insertByCreated r l).Pairwise (fun a b => a.createdAt ≤ b.createdAt) := by
  induction l with
  | nil => simp [insertByCreated]
  | cons x xs ih =>
    rcases List.pairwise_cons.mp hl with ⟨hx, hxs⟩
    by_cases h : r.createdAt ≤ x.createdAt
    · simp only [insertByCreated, h, if_true]
      refine List.pairwise_cons.mpr ⟨?_, hl⟩
      intro y hy
      rcases List.mem_cons.mp hy with hy | hy
      · exact hy ▸ h
      · exact Nat.le_trans h (hx y hy)
    · simp only [insertByCreated, h, if_false]
      refine List.pairwise_cons.mpr ⟨?_, ih hxs⟩
      intro y hy
      rcases (mem_insertByCreated r y xs).mp hy with hy | hy
      · exact hy ▸ Nat.le_of_not_le h
      · exact hx y hy

theorem sorted_sortByCreated (l : List ApprovalRec) :
    (sortByCreated l).Pairwise (fun a b => a.createdAt ≤ b.createdAt) := by
  induction l with
  | nil => simp [sortByCreated]
  | cons x xs ih => exact sorted_insertByCreated x (sortByCreated xs) ih

theorem mem_sortByCreated (l : List ApprovalRec) (a : ApprovalRec) :
    a ∈ sortByCreated l ↔ a ∈ l := by
  induction l with
  | nil => simp [sortByCreated]
  | cons x xs ih =>
    show a ∈ insertByCreated x (sortByCreated xs) ↔ _
    rw [mem_insertByCreated]
    simp [ih]

/-- C8 counterexample: an approval whose deadline equals the current time
is not touched by the strict bulk expiry of getPending and is returned
still pending, so the returned set does contain an approval whose
deadline has been reached. -/
theorem getPending_boundary_counterexample :
    (getPending [⟨"ap1", "p1", "sec-1", "r", [1], .pending, 10, 100, none, none⟩]
        [⟨"p1", "t1", 9⟩] "t1" 100).2
      = [⟨"ap1", "p1", "sec-1", "r", [1], .pending, 10, 100, none, none⟩]
    ∧ ((getPending [⟨"ap1", "p1", "sec-1", "r", [1], .pending, 10, 100, none, none⟩]
        [⟨"p1", "t1", 9⟩] "t1" 100).1
      = [⟨"ap1", "p1", "sec-1", "r", [1], .pending, 10, 100, none, none⟩]) := by
  decide

/-- C8 amended: getPending first bulk-expires the tenant's pending
approvals whose deadline lies strictly before the current time, then
returns only still-pending approvals of the tenant's phones ordered by
created-at ascending; the returned set therefore contains no approval
with expires-at strictly before now, while an approval whose expires-at
equals the current time survives the bulk update and is returned still
pending. -/
theorem getPending_amended (s : ApprovalStore) (phones : List PhoneRec) (tid : String)
    (now : Nat) :
    ((getPending s phones tid now).2).Pairwise (fun a b => a.createdAt ≤ b.createdAt) ∧
    ∀ r ∈ (getPending s phones tid now).2,
      r.status = ApprovalStatus.pending ∧ phoneInTenant phones tid r.phoneId = true
        ∧ now ≤ r.expiresAt := by
  constructor
  · exact sorted_sortByCreated _
  · intro r hr
    have hr2 := (mem_sortByCreated _ r).mp hr
    rcases List.mem_filter.mp hr2 with ⟨hmem, hpred⟩
    have hpred2 : (r.status == ApprovalStatus.pending) = true
        ∧ phoneInTenant phones tid r.phoneId = true := by
      simpa [Bool.and_eq_true] using hpred
    rcases hpred2 with ⟨hstatus, htenant⟩
    have hst : r.status = ApprovalStatus.pending := beq_iff_eq.mp hstatus
    refine ⟨hst, htenant, ?_⟩
    rcases List.any_eq_true.mp htenant with ⟨p, hp, hpb⟩
    have hpb2 : (p.id == r.phoneId) = true ∧ (p.tenantId == tid) = true := by
      simpa [Bool.and_eq_true] using hpb
    rcases hpb2 with ⟨hpid, hptid⟩
    have hpfil : p ∈ phones.filter (fun q => q.tenantId == tid) :=
      List.mem_filter.mpr ⟨hp, hptid⟩
    have hne : (phones.filter (fun q => q.tenantId == tid)).map (fun q => q.id) ≠ [] := by
      intro hnil
      rw [List.map_eq_nil_iff] at hnil
      exact List.ne_nil_of_mem hpfil hnil
    simp only [expireStaleForTenant, getPending] at hmem
    rw [if_neg hne] at hmem
    rcases List.mem_map.mp hmem with ⟨q, hq, hgq⟩
    by_cases hhit : tenantStaleHit
        ((phones.filter (fun q => q.tenantId == tid)).map (fun q => q.id)) now q = true
    · rw [if_pos hhit] at hgq
      rw [← hgq] at hst
      simp at hst
    · rw [if_neg hhit] at hgq
      subst hgq
      have hcont : ((phones.filter (fun q => q.tenantId == tid)).map (fun q => q.id)).contains
          q.phoneId = true := by
        have hqid : p.id = q.phoneId := beq_iff_eq.mp hpid
        have : q.phoneId ∈ (phones.filter (fun q => q.tenantId == tid)).map (fun q => q.id) :=
          List.mem_map.mpr ⟨p, hpfil, hqid⟩
        simpa using this
      simp only [tenantStaleHit, hstatus, hcont, Bool.true_and, decide_eq_true_eq] at hhit
      exact Nat.le_of_not_lt hhit

/-- C8 witness: the amended statement at a concrete store whose single
approval expires exactly at the current time. -/
theorem getPending_amended_witness :
    ((getPending [⟨"ap9", "p1", "sec-9", "r", [1], .pending, 4, 50, none, none⟩]
        [⟨"p1", "t1", 9⟩] "t1" 50).2).Pairwise (fun a b => a.createdAt ≤ b.createdAt) ∧
    ((⟨"ap9", "p1", "sec-9", "r", [1], .pending, 4, 50, none, none⟩ : ApprovalRec).status
        = ApprovalStatus.pending
      ∧ phoneInTenant [⟨"p1", "t1", 9⟩] "t1"
          (⟨"ap9", "p1", "sec-9", "r", [1], .pending, 4, 50, none, none⟩ : ApprovalRec).phoneId
          = true
      ∧ 50 ≤ (⟨"ap9", "p1", "sec-9", "r", [1], .pending, 4, 50, none, none⟩ : ApprovalRec).expiresAt) :=
  ⟨(getPending_amended [⟨"ap9", "p1", "sec-9", "r", [1], .pending, 4, 50, none, none⟩]
      [⟨"p1", "t1", 9⟩] "t1" 50).1,
   (getPending_amended [⟨"ap9", "p1", "sec-9", "r", [1], .pending, 4, 50, none, none⟩]
      [⟨"p1", "t1", 9⟩] "t1" 50).2
      ⟨"ap9", "p1", "sec-9", "r", [1], .pending, 4, 50, none, none⟩ (by decide)⟩

/-- The symbolic Ed25519 model verifies its own signatures. -/
theorem ed25519.verify_sign (priv : Nat) (msg : Bytes) :
    ed25519.verify (ed25519.pubOf priv) msg (ed25519.sign priv msg) = true := by
  simp [ed25519.verify, ed25519.sign]

/-- Spec-side predicate (claim C5): the timestamp string is a plain
decimal numeral of a non-negative integer, with no sign, whitespace or
trailing characters.  Stated from the claim's words, for comparison with
the lenient parse the code performs. -/
def isNonNegIntString (s : String) : Bool :=
  !s.isEmpty && s.data.all Char.isDigit

/-- C5 counterexample: the timestamp string 100abc is not a parseable
non-negative decimal integer in the claim's sense, yet a request signed
by signRequest over exactly these arguments verifies true at clock 100,
because parseInt keeps the numeric prefix and the payload uses the
literal string. -/
theorem verifyRequest_lenient_timestamp :
    signatures.verifyRequest (ed25519.pubOf 5) "100abc" "GET" "/api/secrets" []
      (signatures.signRequest 5 "100abc" "GET" "/api/secrets" []) 100 60000 = true
    ∧ isNonNegIntString "100abc" = false := by
  decide

/-- C5 amended: verifyRequest returns true exactly when parseInt (base
10, longest-prefix JavaScript semantics) yields a value t with
absolute clock distance at most maxAgeMs and the Ed25519 signature
verifies over the canonical payload built from the literal timestamp
string; a NaN parse makes it false even for a signature produced by
signRequest over the same arguments, a request at exactly 60000 ms age
verifies true, and at 60001 ms it verifies false. -/
theorem verifyRequest_characterization (pub priv : Nat) (timestamp method path : String)
    (body : Bytes) (sig : Ed25519Sig) (now : Int) (maxAgeMs : Nat) :
    (signatures.verifyRequest pub timestamp method path body sig now maxAgeMs = true
      ↔ ∃ t : Int, parseIntJs timestamp = some t ∧ (now - t).natAbs ≤ maxAgeMs
          ∧ ed25519.verify pub (requestPayload timestamp method path body) sig = true) ∧
    (parseIntJs timestamp = none →
      signatures.verifyRequest pub timestamp method path body
        (signatures.signRequest priv timestamp method path body) now maxAgeMs = false) ∧
    (∀ t : Int, parseIntJs timestamp = some t →
      signatures.verifyRequest (ed25519.pubOf priv) timestamp method path body
        (signatures.signRequest priv timestamp method path body) (t + 60000) 60000 = true) ∧
    (∀ t : Int, parseIntJs timestamp = some t →
      signatures.verifyRequest (ed25519.pubOf priv) timestamp method path body
        (signatures.signRequest priv timestamp method path body) (t + 60001) 60000 = false) := by
  refine ⟨?_, ?_, ?_, ?_⟩
  · cases hp : parseIntJs timestamp with
    | none => simp [signatures.verifyRequest, hp]
    | some t =>
      by_cases hgt : (now - t).natAbs > maxAgeMs
      · simp only [signatures.verifyRequest, hp, if_pos hgt]
        constructor
        · intro hfalse
          cases hfalse
        · rintro ⟨t2, ht2, hle, _⟩
          cases ht2
          omega
      · simp only [signatures.verifyRequest, hp, if_neg hgt]
        constructor
        · intro hv
          exact ⟨t, rfl, Nat.le_of_not_lt hgt, hv⟩
        · rintro ⟨t2, ht2, _, hv⟩
          cases ht2
          exact hv
  · intro hp
    simp [signatures.verifyRequest, hp]
  · intro t hp
    have habs : ((t + 60000 - t : Int)).natAbs = 60000 := by
      have : (t + 60000 - t : Int) = 60000 := by ring
      rw [this]
      rfl
    simp only [signatures.verifyRequest, hp, habs]
    rw [if_neg (by omega)]
    exact ed25519.verify_sign priv (requestPayload timestamp method path body)
  · intro t hp
    have habs : ((t + 60001 - t : Int)).natAbs = 60001 := by
      have : (t + 60001 - t : Int) = 60001 := by ring
      rw [this]
      rfl
    simp only [signatures.verifyRequest, hp, habs]
    rw [if_pos (by omega)]

/-- C5 witness: a request at exactly 60000 ms age verifies true. -/
theorem verifyRequest_characterization_witness :
    signatures.verifyRequest (ed25519.pubOf 3) "50" "GET" "/p" []
      (signatures.signRequest 3 "50" "GET" "/p" []) ((50 : Int) + 60000) 60000 = true :=
  (verifyRequest_characterization (ed25519.pubOf 3) 3 "50" "GET" "/p" []
    (signatures.signRequest 3 "50" "GET" "/p" []) 0 60000).2.2.1 50 (by decide)

/-- Inversion of an accepted agent-pipeline request: the request carried
a signature, and the middleware appended that signature's digest row to
the shared nonce table. -/
theorem authMiddleware_proceed_inv (db : ServerDb) (req : SignedReq) (now : Nat)
    (a : AgentRec) (db2 : ServerDb)
    (h : authMiddleware db req now = (.proceedAgent a, db2)) :
    ∃ sig, req.signatureHeader = some sig
      ∧ db2 = { db with nonces := db.nonces ++ [(sigDigestHex sig, now + nonceWindowMs)] } := by
  obtain ⟨idH, tsH, sigH, m, p, b⟩ := req
  cases idH with
  | none => simp [authMiddleware] at h
  | some aid =>
    cases tsH with
    | none => simp [authMiddleware] at h
    | some ts =>
      cases sigH with
      | none => simp [authMiddleware] at h
      | some sig =>
        simp only [authMiddleware] at h
        cases hfind : List.find? (fun x => x.id == aid) db.agents with
        | none => simp [hfind] at h
        | some ag =>
          simp only [hfind] at h
          by_cases hv : signatures.verifyRequest ag.ed25519Public ts m p b sig
              (Int.ofNat now) 60000 = true
          · rw [if_pos hv] at h
            by_cases hn : (List.find? (fun n => n.1 == sigDigestHex sig) db.nonces).isSome = true
            · rw [if_pos hn] at h
              simp at h
            · rw [if_neg hn] at h
              exact ⟨sig, rfl, (congrArg Prod.snd h).symm⟩
          · rw [if_neg hv] at h
            simp at h

/-- Inversion of an accepted phone-pipeline request: same shape as the
agent pipeline, over the same nonce table. -/
theorem phoneAuthMiddleware_proceed_inv (db : ServerDb) (req : SignedReq) (now : Nat)
    (ph : PhoneRec) (db2 : ServerDb)
    (h : phoneAuthMiddleware db req now = (.proceedPhone ph, db2)) :
    ∃ sig, req.signatureHeader = some sig
      ∧ db2 = { db with nonces := db.nonces ++ [(sigDigestHex sig, now + nonceWindowMs)] } := by
  obtain ⟨idH, tsH, sigH, m, p, b⟩ := req
  cases idH with
  | none => simp [phoneAuthMiddleware] at h
  | some pid =>
    cases tsH with
    | none => simp [phoneAuthMiddleware] at h
    | some ts =>
      cases sigH with
      | none => simp [phoneAuthMiddleware] at h
      | some sig =>
        simp only [phoneAuthMiddleware] at h
        cases hfind : List.find? (fun x => x.id == pid) db.phones with
        | none => simp [hfind] at h
        | some ph2 =>
          simp only [hfind] at h
          by_cases hv : signatures.verifyRequest ph2.ed25519Public ts m p b sig
              (Int.ofNat now) 60000 = true
          · rw [if_pos hv] at h
            by_cases hn : (List.find? (fun n => n.1 == sigDigestHex sig) db.nonces).isSome = true
            · rw [if_pos hn] at h
              simp at h
            · rw [if_neg hn] at h
              exact ⟨sig, rfl, (congrArg Prod.snd h).symm⟩
          · rw [if_neg hv] at h
            simp at h

/-- A request whose signature digest is already in the nonce table and
which passes the pre-nonce agent checks is answered Replayed with the
store unchanged. -/
theorem authMiddleware_replay_of_digest (db : ServerDb) (req : SignedReq) (now : Nat)
    (sig : Ed25519Sig) (hsig : req.signatureHeader = some sig)
    (hdig : (List.find? (fun n => n.1 == sigDigestHex sig) db.nonces).isSome = true)
    (hauth : agentAuthenticates db req now = true) :
    authMiddleware db req now = (.replayed, db) := by
  obtain ⟨idH, tsH, sigH, m, p, b⟩ := req
  cases hsig
  cases idH with
  | none => simp [agentAuthenticates] at hauth
  | some aid =>
    cases tsH with
    | none => simp [agentAuthenticates] at hauth
    | some ts =>
      simp only [agentAuthenticates] at hauth
      cases hfind : List.find? (fun x => x.id == aid) db.agents with
      | none => simp [hfind] at hauth
      | some ag =>
        simp only [hfind] at hauth
        simp only [authMiddleware, hfind, hauth, if_pos hdig, if_true]

/-- A request whose signature digest is already in the nonce table and
which passes the pre-nonce phone checks is answered Replayed with the
store unchanged. -/
theorem phoneAuthMiddleware_replay_of_digest (db : ServerDb) (req : SignedReq) (now : Nat)
    (sig : Ed25519Sig) (hsig : req.signatureHeader = some sig)
    (hdig : (List.find? (fun n => n.1 == sigDigestHex sig) db.nonces).isSome = true)
    (hauth : phoneAuthenticates db req now = true) :
    phoneAuthMiddleware db req now = (.replayed, db) := by
  obtain ⟨idH, tsH, sigH, m, p, b⟩ := req
  cases hsig
  cases idH with
  | none => simp [phoneAuthenticates] at hauth
  | some pid =>
    cases tsH with
    | none => simp [phoneAuthenticates] at hauth
    | some ts =>
      simp only [phoneAuthenticates] at hauth
      cases hfind : List.find? (fun x => x.id == pid) db.phones with
      | none => simp [hfind] at hauth
      | some ph2 =>
        simp only [hfind] at hauth
        simp only [phoneAuthMiddleware, hfind, hauth, if_pos hdig, if_true]

/-- C4: replay protection accepts each signature at most once.  Whenever
a request passes authentication and proceeds to the handler — whether in
the agent pipeline or in the phone pipeline — the SHA-256 digest of its
signature is inserted into the shared nonce store, and afterwards any
request bearing the same signature that again passes the pre-nonce
authentication checks of either pipeline is answered Replayed without
the handler being invoked and without changing the store. -/
theorem nonce_replay_once :
    (∀ (db : ServerDb) (req : SignedReq) (now : Nat) (a : AgentRec) (db2 : ServerDb),
      authMiddleware db req now = (.proceedAgent a, db2) →
      ∃ sig, req.signatureHeader = some sig
        ∧ (sigDigestHex sig, now + nonceWindowMs) ∈ db2.nonces
        ∧ (∀ req2 now2, req2.signatureHeader = some sig →
            agentAuthenticates db2 req2 now2 = true →
            authMiddleware db2 req2 now2 = (.replayed, db2))
        ∧ (∀ req2 now2, req2.signatureHeader = some sig →
            phoneAuthenticates db2 req2 now2 = true →
            phoneAuthMiddleware db2 req2 now2 = (.replayed, db2))) ∧
    (∀ (db : ServerDb) (req : SignedReq) (now : Nat) (ph : PhoneRec) (db2 : ServerDb),
      phoneAuthMiddleware db req now = (.proceedPhone ph, db2) →
      ∃ sig, req.signatureHeader = some sig
        ∧ (sigDigestHex sig, now + nonceWindowMs) ∈ db2.nonces
        ∧ (∀ req2 now2, req2.signatureHeader = some sig →
            agentAuthenticates db2 req2 now2 = true →
            authMiddleware db2 req2 now2 = (.replayed, db2))
        ∧ (∀ req2 now2, req2.signatureHeader = some sig →
            phoneAuthenticates db2 req2 now2 = true →
            phoneAuthMiddleware db2 req2 now2 = (.replayed, db2))) := by
  constructor
  · intro db req now a db2 h
    obtain ⟨sig, hsig, hdb2⟩ := authMiddleware_proceed_inv db req now a db2 h
    subst hdb2
    refine ⟨sig, hsig, by simp, ?_, ?_⟩
    · intro req2 now2 hsig2 hauth
      exact authMiddleware_replay_of_digest _ req2 now2 sig hsig2
        (List.find?_isSome.mpr ⟨(sigDigestHex sig, now + nonceWindowMs), by simp, by simp⟩)
        hauth
    · intro req2 now2 hsig2 hauth
      exact phoneAuthMiddleware_replay_of_digest _ req2 now2 sig hsig2
        (List.find?_isSome.mpr ⟨(sigDigestHex sig, now + nonceWindowMs), by simp, by simp⟩)
        hauth
  · intro db req now ph db2 h
    obtain ⟨sig, hsig, hdb2⟩ := phoneAuthMiddleware_proceed_inv db req now ph db2 h
    subst hdb2
    refine ⟨sig, hsig, by simp, ?_, ?_⟩
    · intro req2 now2 hsig2 hauth
      exact authMiddleware_replay_of_digest _ req2 now2 sig hsig2
        (List.find?_isSome.mpr ⟨(sigDigestHex sig, now + nonceWindowMs), by simp, by simp⟩)
        hauth
    · intro req2 now2 hsig2 hauth
      exact phoneAuthMiddleware_replay_of_digest _ req2 now2 sig hsig2
        (List.find?_isSome.mpr ⟨(sigDigestHex sig, now + nonceWindowMs), by simp, by simp⟩)
        hauth

/-- Concrete server state for the replay witness: one agent and one phone
sharing the tenant, empty nonce store. -/
def replayDb : ServerDb := ⟨[⟨"a1", "t1", 5, 9⟩], [⟨"p1", "t1", 9⟩], []⟩

/-- Concrete agent-signed request for the replay witness. -/
def replayReq : SignedReq :=
  ⟨some "a1", some "1000", some (signatures.signRequest 9 "1000" "POST" "/api/x" []),
   "POST", "/api/x", []⟩

/-- Server state after the first accepted agent request: the signature
digest is in the nonce store. -/
def replayDb2 : ServerDb :=
  ⟨[⟨"a1", "t1", 5, 9⟩], [⟨"p1", "t1", 9⟩],
   [(sigDigestHex (signatures.signRequest 9 "1000" "POST" "/api/x" []), 121000)]⟩

/-- Concrete phone-signed request for the replay witness. -/
def replayPhoneReq : SignedReq :=
  ⟨some "p1", some "1000", some (signatures.signRequest 9 "1000" "GET" "/api/approvals/pending" []),
   "GET", "/api/approvals/pending", []⟩

/-- Server state after the first accepted phone request. -/
def replayPhoneDb2 : ServerDb :=
  ⟨[⟨"a1", "t1", 5, 9⟩], [⟨"p1", "t1", 9⟩],
   [(sigDigestHex (signatures.signRequest 9 "1000" "GET" "/api/approvals/pending" []), 121000)]⟩

set_option maxRecDepth 8192 in
/-- C4 witness: a concrete agent request and a concrete phone request
each proceed on first submission, and the theorem yields the digest
insertion and the replay rejection in both pipelines for both. -/
theorem nonce_replay_once_witness :
    (∃ sig, replayReq.signatureHeader = some sig
      ∧ (sigDigestHex sig, 1000 + nonceWindowMs) ∈ replayDb2.nonces
      ∧ (∀ req2 now2, req2.signatureHeader = some sig →
          agentAuthenticates replayDb2 req2 now2 = true →
          authMiddleware replayDb2 req2 now2 = (.replayed, replayDb2))
      ∧ (∀ req2 now2, req2.signatureHeader = some sig →
          phoneAuthenticates replayDb2 req2 now2 = true →
          phoneAuthMiddleware replayDb2 req2 now2 = (.replayed, replayDb2)))
    ∧ (∃ sig, replayPhoneReq.signatureHeader = some sig
      ∧ (sigDigestHex sig, 1000 + nonceWindowMs) ∈ replayPhoneDb2.nonces
      ∧ (∀ req2 now2, req2.signatureHeader = some sig →
          agentAuthenticates replayPhoneDb2 req2 now2 = true →
          authMiddleware replayPhoneDb2 req2 now2 = (.replayed, replayPhoneDb2))
      ∧ (∀ req2 now2, req2.signatureHeader = some sig →
          phoneAuthenticates replayPhoneDb2 req2 now2 = true →
          phoneAuthMiddleware replayPhoneDb2 req2 now2 = (.replayed, replayPhoneDb2))) :=
  ⟨nonce_replay_once.1 replayDb replayReq 1000 ⟨"a1", "t1", 5, 9⟩ replayDb2 (by decide),
   nonce_replay_once.2 replayDb replayPhoneReq 1000 ⟨"p1", "t1", 9⟩ replayPhoneDb2 (by decide)⟩

/-- C7 witness: the amended statement applied at a concrete request whose
secret does not exist. -/
theorem retrieve_audit_iff_granted_witness :
    ((retrieveHandler (fun _ => none) (fun _ => none) ⟨"a1", "t1", 5, 9⟩ "missing"
          ⟨some 4, some [1], "check"⟩ [0] 0 7).2
        = [⟨"a1", "missing", "check", Tier.green, AuditResult.auto_granted, some (7 - 0)⟩]
      ∧ ∃ ct tg, (retrieveHandler (fun _ => none) (fun _ => none) ⟨"a1", "t1", 5, 9⟩ "missing"
            ⟨some 4, some [1], "check"⟩ [0] 0 7).1 = RetrieveRes.ok ct [0] tg)
    ∨ ((retrieveHandler (fun _ => none) (fun _ => none) ⟨"a1", "t1", 5, 9⟩ "missing"
          ⟨some 4, some [1], "check"⟩ [0] 0 7).2 = []
      ∧ ∀ ct ivv tg, (retrieveHandler (fun _ => none) (fun _ => none) ⟨"a1", "t1", 5, 9⟩
            "missing" ⟨some 4, some [1], "check"⟩ [0] 0 7).1 ≠ RetrieveRes.ok ct ivv tg) :=
  retrieve_audit_iff_granted (fun _ => none) (fun _ => none) ⟨"a1", "t1", 5, 9⟩ "missing"
    ⟨some 4, some [1], "check"⟩ [0] 0 7
